import Mathlib

/-!
A shallow embedding of the `gim` terminal editor (Go, `main.go`, the final
version of the program in the repository) and proofs about it.

Byte strings are modelled as `List Nat` (Go strings are byte sequences; the
editor treats all offsets as byte offsets).  Go `int` values that can go
negative in the program (`E.x`, `E.y`, offsets) are modelled as `Int`;
quantities that are provably non-negative indices are `Nat`.
Out-of-range slice indexing panics in Go; the embedding totalises it with a
default row / default element, and every theorem only exercises in-range
states except where the panic itself is the finding.
-/

/-- The function `strB` gives the byte (code-point) list of an ASCII string literal. -/
def strB (s : String) : List Nat := s.toList.map Char.toNat

/- Highlight classes, from the `const` block (`iota` order). -/

def HighlightNormal : Nat := 0
def HighlightNumber : Nat := 1
def HighlightMatch : Nat := 2
def HighlightString : Nat := 3
def HighlightComment : Nat := 4
def HighlightMultilineComment : Nat := 5
def HighLightKeyword1 : Nat := 6
def HighLightKeyword2 : Nat := 7

def FlagHighlightNumber : Nat := 1
def FlagHighlightString : Nat := 2

/- Key codes, from the `const` block: `Enter = '\r'`, `Backspace = 127`,
then `ArrowLeft = iota + 1000` with `iota = 2` at that line. -/

def EnterKey : Nat := 13
def BackspaceKey : Nat := 127
def EscapeCharKey : Nat := 27
def ArrowLeft : Nat := 1002
def ArrowRight : Nat := 1003
def ArrowUp : Nat := 1004
def ArrowDown : Nat := 1005
def HomeKey : Nat := 1006
def DelKey : Nat := 1007
def EndKey : Nat := 1008
def PageUp : Nat := 1009
def PageDown : Nat := 1010

/-- Model of `ctrlKey k = k & 0x1f`. -/
def ctrlKey (k : Nat) : Nat := k % 32

def EmptyFile : List Nat := strB "[New File]"

/-- One editor row: stable index, raw line, rendered line, per-render-byte
highlight classes, and the unterminated-multiline-comment flag. -/
structure EditorRow where
  idx : Nat
  line : List Nat
  render : List Nat
  highlight : List Nat
  hlOpenComment : Bool
deriving DecidableEq, Repr

/-- The zero value of `EditorRow` (Go's zero struct). -/
def dRow : EditorRow := ⟨0, [], [], [], false⟩

/-- A language profile (`EditorSyntax` in the source). -/
structure EditorSyntax where
  fileType : List Nat
  fileMatch : List (List Nat)
  keywords : List (List Nat)
  singleLineCommentStart : List Nat
  multilineCommentStart : List Nat
  multilineCommentEnd : List Nat
  flags : Nat
deriving DecidableEq, Repr

def CSupportHighlightExtensions : List (List Nat) := [strB ".c", strB ".h", strB ".cpp"]

def CHighlightKeywords : List (List Nat) :=
  [strB "switch", strB "if", strB "while", strB "for", strB "break", strB "continue",
   strB "return", strB "else", strB "struct", strB "union", strB "typedef", strB "static",
   strB "enum", strB "class", strB "case",
   strB "int|", strB "long|", strB "double|", strB "float|", strB "char|",
   strB "unsigned|", strB "signed", strB "void|"]

def GoSupportHighlightExtensions : List (List Nat) := [strB ".go"]

def GoHighlightKeywords : List (List Nat) :=
  [strB "break", strB "default", strB "func", strB "interface", strB "select",
   strB "case", strB "defer", strB "go", strB "else", strB "goto", strB "package",
   strB "switch", strB "fallthrough", strB "if", strB "range", strB "continue",
   strB "for", strB "import", strB "return",
   strB "type|", strB "var|", strB "chan|", strB "bool|", strB "map|", strB "struct|",
   strB "const|", strB "int|", strB "string|", strB "rune|", strB "byte|",
   strB "float64|", strB "float32|", strB "int8|", strB "int16|", strB "int32|",
   strB "int64|"]

def cLangSyntax : EditorSyntax :=
  { fileType := strB "c"
    fileMatch := CSupportHighlightExtensions
    keywords := CHighlightKeywords
    singleLineCommentStart := strB "//"
    multilineCommentStart := strB "/*"
    multilineCommentEnd := strB "*/"
    flags := FlagHighlightNumber ||| FlagHighlightString }

def goLangSyntax : EditorSyntax :=
  { fileType := strB "go"
    fileMatch := GoSupportHighlightExtensions
    keywords := GoHighlightKeywords
    singleLineCommentStart := strB "//"
    multilineCommentStart := strB "/*"
    multilineCommentEnd := strB "*/"
    flags := FlagHighlightNumber ||| FlagHighlightString }

def HighlightDatabase : List EditorSyntax := [cLangSyntax, goLangSyntax]

/-- Model of `unicode.IsSpace` on the code points a Go rune can take here. -/
def isSpaceGo (c : Nat) : Bool :=
  c = 9 || c = 10 || c = 11 || c = 12 || c = 13 || c = 32 || c = 0x85 || c = 0xA0 ||
  c = 0x1680 || (0x2000 ≤ c && c ≤ 0x200A) || c = 0x2028 || c = 0x2029 ||
  c = 0x202F || c = 0x205F || c = 0x3000

/-- Model of `unicode.IsDigit` restricted to the byte-derived runes the editor feeds it
(code points below 256, where the Nd category is exactly ASCII `0`-`9`). -/
def isDigitGo (c : Nat) : Bool := 48 ≤ c && c ≤ 57

/-- Model of `isSeparator`: whitespace or one of the punctuation bytes. -/
def isSeparator (c : Nat) : Bool :=
  isSpaceGo c || (strB ",.()+-/*=~%<>\x7b\x7d;").contains c

/-- Model of `strings.HasPrefix`. -/
def hasPrefixB (s p : List Nat) : Bool := p.isPrefixOf s

/-- Set positions `[from, to)` of `hl` to `v` (the marker-painting loops). -/
def fillRange (hl : List Nat) (lo hi v : Nat) : List Nat :=
  (List.range hl.length).zipWith (fun i old => if lo ≤ i ∧ i < hi then v else old) hl

/-- Set positions `[lo, len)` of `hl` to `v` (single-line comment tail). -/
def fillFrom (hl : List Nat) (lo v : Nat) : List Nat := fillRange hl lo hl.length v

/-- First keyword of `keywords` matching at position `i` of `render`,
with its list index, its effective length and its class-2 mark.
Mirrors the inner `for lastKeyword, keyword = range keywords` loop:
a match needs the keyword as a prefix and a separator or end-of-row after it.
(A keyword that is the empty string would panic in Go at `keyword[len-1]`;
the built-in keyword lists contain none.) -/
def findKeyword (keywords : List (List Nat)) (render : List Nat) (i : Nat) :
    Option (Nat × Nat × Bool) :=
  go keywords 0
where
  go : List (List Nat) → Nat → Option (Nat × Nat × Bool)
  | [], _ => none
  | kw :: rest, j =>
    let isKeyword2 : Bool := kw.getLastD 0 = 124
    let kwTrim : List Nat := if isKeyword2 then kw.dropLast else kw
    let keywordLen := kwTrim.length
    if hasPrefixB (render.drop i) kwTrim ∧
        ((i + keywordLen < render.length ∧
          isSeparator (render.getD (i + keywordLen) 0)) ∨
         i + keywordLen = render.length) then
      some (j, keywordLen, isKeyword2)
    else
      go rest (j + 1)

/-- The single left-to-right pass of `editorRenderSyntax` over `render`,
starting at position `i` with the loop state `(prevSep, inString, inComment)`
and the highlight array `hl` (initialised to all `HighlightNormal` by the
caller).  `inString` is the quote rune, `0` when outside a string.
Returns the final highlight array and the final `inComment`.
`fuel` only bounds the recursion; `2 * render.length + 3` always suffices
because every iteration either advances `i` or switches `prevSep` off. -/
def hlLoop (sy : EditorSyntax) (render : List Nat) :
    Nat → Nat → List Nat → Bool → Nat → Bool → List Nat × Bool
  | 0, _, hl, _, _, inComment => (hl, inComment)
  | fuel + 1, i, hl, prevSep, inString, inComment =>
    if i < render.length then
      let char := render.getD i 0
      let prevHighlight := if i > 0 then hl.getD (i - 1) 0 else HighlightNormal
      if sy.singleLineCommentStart ≠ [] ∧ inString = 0 ∧ inComment = false ∧
          hasPrefixB (render.drop i) sy.singleLineCommentStart then
        (fillFrom hl i HighlightComment, inComment)
      else if sy.multilineCommentStart ≠ [] ∧ sy.multilineCommentEnd ≠ [] ∧
          inString = 0 ∧ inComment = true then
        let hl1 := hl.set i HighlightMultilineComment
        if hasPrefixB (render.drop i) sy.multilineCommentEnd then
          hlLoop sy render fuel (i + sy.multilineCommentEnd.length)
            (fillRange hl1 i (i + sy.multilineCommentEnd.length) HighlightMultilineComment)
            true 0 false
        else
          hlLoop sy render fuel (i + 1) hl1 prevSep inString true
      else if sy.multilineCommentStart ≠ [] ∧ sy.multilineCommentEnd ≠ [] ∧
          inString = 0 ∧ hasPrefixB (render.drop i) sy.multilineCommentStart then
        hlLoop sy render fuel (i + sy.multilineCommentStart.length)
          (fillRange hl i (i + sy.multilineCommentStart.length) HighlightMultilineComment)
          prevSep inString true
      else if sy.flags &&& FlagHighlightString = 2 ∧ inString ≠ 0 then
        let hl1 := hl.set i HighlightString
        if char = 92 ∧ i + 1 < render.length then
          hlLoop sy render fuel (i + 2) (hl1.set (i + 1) HighlightString)
            prevSep inString inComment
        else
          hlLoop sy render fuel (i + 1) hl1 true
            (if char = inString then 0 else inString) inComment
      else if sy.flags &&& FlagHighlightString = 2 ∧ (char = 34 ∨ char = 39) then
        hlLoop sy render fuel (i + 1) (hl.set i HighlightString) prevSep char inComment
      else if sy.flags &&& FlagHighlightNumber = 1 ∧
          ((isDigitGo char ∧ (prevSep ∨ prevHighlight = HighlightNumber)) ∨
           (char = 46 ∧ prevHighlight = HighlightNumber)) then
        hlLoop sy render fuel (i + 1) (hl.set i HighlightNumber) false inString inComment
      else if prevSep then
        match findKeyword sy.keywords render i with
        | some (j, keywordLen, isKeyword2) =>
          let hl1 := fillRange hl i (i + keywordLen)
            (if isKeyword2 then HighLightKeyword2 else HighLightKeyword1)
          -- `break` leaves `lastKeyword = j`; only when the match was not the
          -- last keyword does `lastKeyword != len(keywords)-1` hold and the
          -- outer loop `continue` with `prevSeparator = false`.  A match on
          -- the very last keyword falls through to the generic advance,
          -- skipping one extra byte.
          if j + 1 ≠ sy.keywords.length then
            hlLoop sy render fuel (i + keywordLen) hl1 false inString inComment
          else
            hlLoop sy render fuel (i + keywordLen + 1) hl1 (isSeparator char)
              inString inComment
        | none =>
          -- the range loop completed: `lastKeyword = len(keywords)-1` (or `-1`
          -- for an empty list, and `-1 = len-1` then too), so fall through.
          hlLoop sy render fuel (i + 1) hl (isSeparator char) inString inComment
      else
        hlLoop sy render fuel (i + 1) hl (isSeparator char) inString inComment
    else (hl, inComment)

/-- Model of `editorRenderSyntax`'s per-row computation when a profile is active:
the highlight vector (starting all `Normal`) and the final `inComment` flag,
given the preceding row's `hl_open_comment` as `inComment₀`. -/
def computeHighlight (sy : EditorSyntax) (render : List Nat) (inComment₀ : Bool) :
    List Nat × Bool :=
  hlLoop sy render (2 * render.length + 3) 0
    (List.replicate render.length HighlightNormal) true 0 inComment₀

/-- Tab expansion of `editorRenderRow`: `strings.ReplaceAll(line, "\t", TabStop)`
with `TabStop = "    "` (4 spaces). -/
def renderOf (line : List Nat) : List Nat :=
  line.flatMap (fun c => if c = 9 then strB "    " else [c])

/-- The editor state (`EditorConfig`).  `E.syntax` (a nullable pointer) is the
field `profile`; the terminal handle and the write buffer carry no editor
semantics and are omitted.  `x`, `y` and the offsets are Go `int`s and can go
negative, hence `Int`. -/
structure EditorConfig where
  x : Int
  y : Int
  renderX : Int
  screenRows : Int
  screenCols : Int
  offRow : Int
  offCol : Int
  rows : List EditorRow
  profile : Option EditorSyntax
  dirty : Bool
  filename : List Nat
  statusMessage : List Nat
deriving DecidableEq, Repr

/-- Model of `E.rows[i]` (Go panics when out of range; theorems stay in range except
where the out-of-range access itself is the finding). -/
def rowAt (rows : List EditorRow) (i : Nat) : EditorRow := rows.getD i dRow

/-- Model of `editorRenderSyntax(&rows[p])`: initialise the row's highlight to all
`Normal`; with no active profile stop there; otherwise run the scanning pass
seeded with the *stored-index* predecessor's `hl_open_comment`, store the
result, and when the final flag changed recurse on the row at index
`row.idx + 1`.  `fuel` bounds the recursion (`rows.length + 1` is enough
whenever every row's `idx` equals its position, the only states the theorems
use; Go itself can recurse without bound on states with cyclic indices). -/
def editorRenderSyntaxAt (syn : Option EditorSyntax) :
    Nat → List EditorRow → Nat → List EditorRow
  | 0, rows, _ => rows
  | fuel + 1, rows, p =>
    let row := rowAt rows p
    match syn with
    | none =>
      rows.set p { row with highlight := List.replicate row.render.length HighlightNormal }
    | some sy =>
      let inComment₀ := decide (row.idx > 0) && (rowAt rows (row.idx - 1)).hlOpenComment
      let res := computeHighlight sy row.render inComment₀
      let rows' := rows.set p { row with highlight := res.1, hlOpenComment := res.2 }
      if row.hlOpenComment ≠ res.2 ∧ row.idx + 1 < rows'.length then
        editorRenderSyntaxAt syn fuel rows' (row.idx + 1)
      else rows'

/-- Model of `editorRenderRow(&rows[p])`: recompute `render` by tab expansion, then
re-run the syntax pass on the row. -/
def editorRenderRowAt (syn : Option EditorSyntax) (rows : List EditorRow) (p : Nat) :
    List EditorRow :=
  editorRenderSyntaxAt syn (rows.length + 1)
    (rows.set p { rowAt rows p with render := renderOf (rowAt rows p).line }) p

/-- Model of `editorRowInsertChar(&E.rows[p], at, char)`.  An out-of-range `at` is
clamped to the end; `builder.WriteByte(byte(char))` truncates the rune to a
byte. -/
def editorRowInsertChar (s : EditorConfig) (p : Nat) (at_ : Int) (char : Nat) :
    EditorConfig :=
  let row := rowAt s.rows p
  let atN : Nat := if at_ < 0 ∨ at_ > (row.line.length : Int) then row.line.length
                   else at_.toNat
  let line' := row.line.take atN ++ [char % 256] ++ row.line.drop atN
  let rows₁ := s.rows.set p { row with line := line' }
  { s with rows := editorRenderRowAt s.profile rows₁ p, dirty := true }

/-- Model of `editorRowDeleteChar(&E.rows[p], at)`: no-op when `at` is out of range. -/
def editorRowDeleteChar (s : EditorConfig) (p : Nat) (at_ : Int) : EditorConfig :=
  let row := rowAt s.rows p
  if at_ < 0 ∨ at_ ≥ (row.line.length : Int) then s
  else
    let atN := at_.toNat
    let line' := row.line.take atN ++ row.line.drop (atN + 1)
    let rows₁ := s.rows.set p { row with line := line' }
    { s with rows := editorRenderRowAt s.profile rows₁ p, dirty := true }

/-- Model of `editorRowAppendString(&E.rows[p], line)`. -/
def editorRowAppendString (s : EditorConfig) (p : Nat) (line : List Nat) : EditorConfig :=
  let row := rowAt s.rows p
  let rows₁ := s.rows.set p { row with line := row.line ++ line }
  { s with rows := editorRenderRowAt s.profile rows₁ p, dirty := true }

/-- Model of `editorInsertRow(at, line)`: build `dist` of length `len+1`, setting
`idx := i` on every entry; then `editorRenderRow(&dist[at])` runs *before*
`E.rows = dist`, so the syntax pass reads the predecessor flag from the old
slice (whose value at `at-1` coincides with `dist`'s) and any recursive
re-render it triggers walks the old, about-to-be-discarded slice — those
effects are lost, which is why no cascade appears below. -/
def editorInsertRow (s : EditorConfig) (at_ : Int) (line : List Nat) : EditorConfig :=
  if at_ < 0 ∨ at_ > (s.rows.length : Int) then s
  else
    let atN := at_.toNat
    let dist := (List.range (s.rows.length + 1)).map fun i =>
      if i < atN then { rowAt s.rows i with idx := i }
      else if i > atN then { rowAt s.rows (i - 1) with idx := i }
      else { dRow with line := line, idx := i }
    let row := rowAt dist atN
    let row₁ := { row with render := renderOf row.line }
    let dist₁ := dist.set atN row₁
    let dist₂ :=
      match s.profile with
      | none =>
        dist₁.set atN
          { row₁ with highlight := List.replicate row₁.render.length HighlightNormal }
      | some sy =>
        let inComment₀ := decide (row₁.idx > 0) &&
          (rowAt s.rows (row₁.idx - 1)).hlOpenComment
        let res := computeHighlight sy row₁.render inComment₀
        dist₁.set atN { row₁ with highlight := res.1, hlOpenComment := res.2 }
    { s with rows := dist₂, dirty := true }

/-- Model of `editorDeleteRow(at)`: note the guard is `at > len(source)`, so
`at == len(source)` passes and only sets `dirty`.  `dist` is a fresh array
(`make` + `copy`, and `append` reallocates), so the `E.rows[j].idx--` loop
that follows in the source mutates the old slice, which is then replaced by
`dist` — it has no observable effect and the stale indices survive. -/
def editorDeleteRow (s : EditorConfig) (at_ : Int) : EditorConfig :=
  if at_ < 0 ∨ at_ > (s.rows.length : Int) then s
  else
    let atN := at_.toNat
    { s with rows := s.rows.take atN ++ s.rows.drop (atN + 1), dirty := true }

/-- Model of `editorInsertChar(char)`. -/
def editorInsertChar (s : EditorConfig) (char : Nat) : EditorConfig :=
  let s₁ := if s.y = (s.rows.length : Int) then
              editorInsertRow s (s.rows.length : Int) []
            else s
  let s₂ := editorRowInsertChar s₁ s.y.toNat s.x char
  { s₂ with x := s₂.x + 1 }

/-- Model of `editorDeleteChar()`: the virtual-trailing-row branch runs `editorDeleteRow`
at `len(rows)` (which only marks dirty) and decrements `cy` — even on the
empty buffer, where `cy` becomes `-1`. -/
def editorDeleteChar (s : EditorConfig) : EditorConfig :=
  if s.y = (s.rows.length : Int) then
    let s₁ := editorDeleteRow s (s.rows.length : Int)
    { s₁ with y := s₁.y - 1 }
  else if s.x = 0 ∧ s.y = 0 then s
  else if s.x > 0 then
    let s₁ := editorRowDeleteChar s s.y.toNat (s.x - 1)
    { s₁ with x := s₁.x - 1 }
  else
    let upLen := ((rowAt s.rows (s.y - 1).toNat).line.length : Int)
    let curLine := (rowAt s.rows s.y.toNat).line
    let s₁ := { s with x := upLen }
    let s₂ := editorRowAppendString s₁ (s.y - 1).toNat curLine
    let s₃ := editorDeleteRow s₂ s.y
    { s₃ with y := s₃.y - 1 }

/-- Model of `editorInsertNewLine()`. -/
def editorInsertNewLine (s : EditorConfig) : EditorConfig :=
  let s₁ :=
    if s.x = 0 then editorInsertRow s s.y []
    else
      let line := (rowAt s.rows s.y.toNat).line
      let s' := editorInsertRow s (s.y + 1) (line.drop s.x.toNat)
      let row := rowAt s'.rows s.y.toNat
      let rows₁ := s'.rows.set s.y.toNat { row with line := line.take s.x.toNat }
      { s' with rows := editorRenderRowAt s'.profile rows₁ s.y.toNat }
  { s₁ with y := s₁.y + 1, x := 0 }

/-- Model of `editorMoveCursor(key)` (`GetCurRow` tests only `y < len(rows)`; a negative
`y` would panic in Go and is modelled by the default row). -/
def editorMoveCursor (s : EditorConfig) (key : Nat) : EditorConfig :=
  let ok := s.y < (s.rows.length : Int)
  let row := rowAt s.rows s.y.toNat
  let s₁ :=
    if key = ArrowLeft then
      if s.x ≠ 0 then { s with x := s.x - 1 }
      else if s.y > 0 then
        { s with y := s.y - 1,
                 x := ((rowAt s.rows (s.y - 1).toNat).line.length : Int) }
      else s
    else if key = ArrowRight then
      if ok ∧ s.x < (row.line.length : Int) then { s with x := s.x + 1 }
      else if ok ∧ s.x = (row.line.length : Int) then { s with y := s.y + 1, x := 0 }
      else s
    else if key = ArrowUp then
      if s.y ≠ 0 then { s with y := s.y - 1 } else s
    else if key = ArrowDown then
      if s.y < (s.rows.length : Int) then { s with y := s.y + 1 } else s
    else s
  let ok₁ := s₁.y < (s₁.rows.length : Int)
  let row₁ := rowAt s₁.rows s₁.y.toNat
  if ok₁ ∧ s₁.x > (row₁.line.length : Int) then { s₁ with x := (row₁.line.length : Int) }
  else if ¬ ok₁ then { s₁ with x := 0 }
  else s₁

/-- Model of `Render2X` helper: the loop with its running render column and index. -/
def render2XGo (target : Nat) : List Nat → Nat → Nat → Nat
  | [], _, x => x
  | c :: rest, cur, x =>
    let cur' := cur + (if c = 9 then 4 else 1)
    if cur' > target then x else render2XGo target rest cur' (x + 1)

/-- Model of `Render2X(row, render)`: scan `line` until the cumulative render column
strictly exceeds the target (`len(TabStop)-1 = 3` extra columns per tab). -/
def Render2X (line : List Nat) (render : Nat) : Nat := render2XGo render line 0 0

/-- Model of `X2Render(row, x)`: total render width of the first `x` bytes of `line`
(Go panics when `x` exceeds the line length; callers keep it in range). -/
def X2Render : List Nat → Nat → Nat
  | _, 0 => 0
  | [], _ + 1 => 0
  | c :: rest, x + 1 => (if c = 9 then 4 else 1) + X2Render rest x

/-- Model of `strings.Index(h, n)`: first index where `n` occurs as a sublist. -/
def indexOfSub (h n : List Nat) : Option Nat :=
  (List.range (h.length + 1)).find? (fun i => hasPrefixB (h.drop i) n)

/-- Model of `strings.Contains(h, n)`. -/
def containsSub (h n : List Nat) : Bool := (indexOfSub h n).isSome

/-- Model of `strings.LastIndex(s, ".")`. -/
def lastIndexDot (s : List Nat) : Option Nat :=
  ((List.range s.length).filter (fun i => s.getD i 0 = 46)).getLast?

/-- Re-run `editorRenderSyntax` on every row in order (the loop inside
`editorSelectSyntaxHighlight`). -/
def renderSyntaxAll (syn : Option EditorSyntax) (rows : List EditorRow) :
    List EditorRow :=
  (List.range rows.length).foldl (fun r i => editorRenderSyntaxAt syn (r.length + 1) r i) rows

/-- Model of `editorRenderRows()`. -/
def editorRenderRows (syn : Option EditorSyntax) (rows : List EditorRow) :
    List EditorRow :=
  (List.range rows.length).foldl (fun r i => editorRenderRowAt syn r i) rows

/-- The profile scan of `editorSelectSyntaxHighlight`: the first profile one of
whose `fileMatch` entries *contains* `ext` as a substring wins and every row is
re-highlighted with it. -/
def selectLoop (s : EditorConfig) (ext : List Nat) : List EditorSyntax → EditorConfig
  | [] => s
  | sy :: rest =>
    if sy.fileMatch.any (fun m => containsSub m ext) then
      { s with profile := some sy, rows := renderSyntaxAll (some sy) s.rows }
    else selectLoop s ext rest

/-- Model of `editorSelectSyntaxHighlight()`: clear the profile, keep it cleared for the
sentinel filename, otherwise scan the database keyed on the last-`.` suffix
(the empty string when the filename has no dot). -/
def editorSelectSyntaxHighlight (s : EditorConfig) : EditorConfig :=
  let s₀ := { s with profile := none }
  if s.filename = EmptyFile then s₀
  else
    let ext := match lastIndexDot s.filename with
               | some i => s.filename.drop i
               | none => []
    selectLoop s₀ ext HighlightDatabase

/-- Model of `editorOpen(filename)`, given the lines the read loop produced: rows are
appended as `EditorRow{line: ...}`, so every other field — `idx` included —
keeps its zero value; then the profile is selected (re-highlighting the still
render-less rows) and finally every row is rendered in order. -/
def editorOpen (s : EditorConfig) (filename : List Nat) (fileLines : List (List Nat)) :
    EditorConfig :=
  let rows := fileLines.map (fun l => { dRow with line := l })
  let s₁ := { s with rows := rows, filename := filename }
  let s₂ := editorSelectSyntaxHighlight s₁
  { s₂ with rows := editorRenderRows s₂.profile s₂.rows }

/-- Model of `editorMapArrowKey`. -/
def editorMapArrowKey (key : Nat) : Nat :=
  if key = 65 then ArrowUp
  else if key = 66 then ArrowDown
  else if key = 67 then ArrowRight
  else if key = 68 then ArrowLeft
  else EscapeCharKey

/-- Model of `editorReadMoreKey`, acting on the bytes currently available after the
leading `ESC`: each `os.Stdin.Read(buf)` delivers `min(len(buf), available)`
bytes, and a short read falls straight back to `Escape`, discarding what was
consumed.  Returns the decoded key and the unconsumed bytes. -/
def editorReadMoreKey : List Nat → Nat × List Nat
  | b0 :: b1 :: rest =>
    if b0 = 91 then
      if 48 ≤ b1 ∧ b1 ≤ 57 then
        match rest with
        | b2 :: rest₂ =>
          if b2 = 126 then
            (if b1 = 49 then HomeKey
             else if b1 = 51 then DelKey
             else if b1 = 52 then EndKey
             else if b1 = 53 then PageUp
             else if b1 = 54 then PageDown
             else if b1 = 55 then HomeKey
             else if b1 = 56 then EndKey
             else EscapeCharKey, rest₂)
          else (EscapeCharKey, rest₂)
        | [] => (EscapeCharKey, [])
      else if b1 = 65 ∨ b1 = 66 ∨ b1 = 67 ∨ b1 = 68 then (editorMapArrowKey b1, rest)
      else if b1 = 72 then (HomeKey, rest)
      else if b1 = 70 then (EndKey, rest)
      else (EscapeCharKey, rest)
    else if b0 = 79 then
      if b1 = 72 then (HomeKey, rest)
      else if b1 = 70 then (EndKey, rest)
      else (EscapeCharKey, rest)
    else (EscapeCharKey, rest)
  | _ => (EscapeCharKey, [])

/-- Model of `editorReadKey`, on the bytes currently available on stdin.  `readRune`
loops until a byte arrives, so the input list is taken non-empty (the empty
case is never exercised). -/
def editorReadKey : List Nat → Nat × List Nat
  | [] => (0, [])
  | b :: rest => if b = 27 then editorReadMoreKey rest else (b, rest)

/-- Outcome of one `editorProcessKeyPress` dispatch: continue with the new
state and quit counter, or `os.Exit(code)`. -/
inductive StepResult where
  | cont (s : EditorConfig) (quitTimes : Nat)
  | exitCode (code : Nat)
deriving DecidableEq, Repr

/-- Model of `string(c)` for a rune `c` (UTF-8 bytes; the key codes stay below 2048). -/
def runeStr (c : Nat) : List Nat :=
  if c < 128 then [c]
  else if c < 2048 then [192 + c / 64, 128 + c % 64]
  else [224 + c / 4096, 128 + c / 64 % 64, 128 + c % 64]

/-- The quit-warning status text with the counter spliced in. -/
def quitWarning (n : Nat) : List Nat :=
  strB "WARNING!! File has unsaved changes. Press Ctrl-q " ++ strB (toString n) ++
    strB " more times to quit"

/-- Model of `editorProcessKeyPress` for an already-decoded key `c`.  `editorSave` and
`editorFind` perform file and prompt I/O, so their effect on the editor state
is abstracted as the parameters `saveFn` and `findFn`; every theorem below
quantifies over them.  The `var quitTimes` package variable is threaded
explicitly; every dispatch path ends in the `quitTimes = 3` reset except the
quit-confirmation path's early `return` (and `exit`). -/
def editorProcessKeyPress (saveFn findFn : EditorConfig → EditorConfig)
    (c : Nat) (s₀ : EditorConfig) (quitTimes : Nat) : StepResult :=
  let s := { s₀ with statusMessage := runeStr c }
  if c = EnterKey then .cont (editorInsertNewLine s) 3
  else if c = ctrlKey 113 then
    if s.dirty ∧ quitTimes > 0 then
      .cont { s with statusMessage := quitWarning quitTimes } (quitTimes - 1)
    else .exitCode 0
  else if c = ctrlKey 115 then .cont (saveFn s) 3
  else if c = ctrlKey 102 then .cont (findFn s) 3
  else if c = PageUp ∨ c = PageDown then
    let s₁ :=
      if c = PageUp then { s with y := s.offRow }
      else
        let y' := s.offRow + s.screenRows - 1
        { s with y := if y' > (s.rows.length : Int) then (s.rows.length : Int) else y' }
    let arrow := if c = PageUp then ArrowUp else ArrowDown
    .cont ((fun st => editorMoveCursor st arrow)^[s.screenRows.toNat] s₁) 3
  else if c = HomeKey then .cont { s with x := 0 } 3
  else if c = EndKey then
    .cont (if s.y < (s.rows.length : Int) then
             { s with x := ((rowAt s.rows s.y.toNat).line.length : Int) }
           else s) 3
  else if c = DelKey then .cont (editorDeleteChar (editorMoveCursor s ArrowRight)) 3
  else if c = BackspaceKey ∨ c = ctrlKey 104 then .cont (editorDeleteChar s) 3
  else if c = ArrowUp ∨ c = ArrowDown ∨ c = ArrowRight ∨ c = ArrowLeft then
    .cont (editorMoveCursor s c) 3
  else if c = ctrlKey 108 ∨ c = EscapeCharKey then .cont s 3
  else .cont (editorInsertChar s c) 3

/-- The editor state together with the find-mode package variables
(`lastMatch`, `direction`, `highlightRowIndex`, `highlightRowContent`). -/
structure FindState where
  e : EditorConfig
  lastMatch : Int
  direction : Int
  highlightRowIndex : Int
  highlightRowContent : List Nat
deriving DecidableEq, Repr

/-- The `for range E.rows` search loop of `editorFindCallBack`: step `current`
by `direction` with wrap-around, stop at the first row whose `render` contains
the query, move the cursor there, pin `offRow`, save the row's highlight and
overwrite the matched range with `Match` (the loop copy shares the highlight
slice with `E.rows[current]`, so the write lands in the buffer). -/
def findLoop (fs : FindState) (query : List Nat) : Nat → Int → FindState
  | 0, _ => fs
  | n + 1, current =>
    let current₁ := current + fs.direction
    let current₂ : Int :=
      if current₁ = -1 then (fs.e.rows.length : Int) - 1
      else if current₁ = (fs.e.rows.length : Int) then 0
      else current₁
    let row := rowAt fs.e.rows current₂.toNat
    match indexOfSub row.render query with
    | some m =>
      { fs with
        lastMatch := current₂
        e := { fs.e with
          y := current₂
          x := (Render2X row.line m : Int)
          offRow := (fs.e.rows.length : Int)
          rows := fs.e.rows.set current₂.toNat
            { row with highlight := fillRange row.highlight m (m + query.length) HighlightMatch } }
        highlightRowIndex := current₂
        highlightRowContent := row.highlight }
    | none => findLoop fs query n current₂

/-- Model of `editorFindCallBack(query, key)`: restore the previously saved highlight,
reset or set the search direction, run the wrapped scan unless the key ended
find mode, and finish — unconditionally — with the `"Not found"` status. -/
def editorFindCallBack (fs₀ : FindState) (query : List Nat) (key : Nat) : FindState :=
  let fs :=
    if fs₀.highlightRowIndex ≠ -1 then
      let p := fs₀.highlightRowIndex.toNat
      let row := rowAt fs₀.e.rows p
      { fs₀ with
        e := { fs₀.e with
          rows := fs₀.e.rows.set p { row with highlight := fs₀.highlightRowContent } }
        highlightRowIndex := -1 }
    else fs₀
  if key = EndKey ∨ key = EscapeCharKey then
    { fs with lastMatch := -1, direction := 1 }
  else
    let fs₁ :=
      if key = ArrowRight ∨ key = ArrowDown then { fs with direction := 1 }
      else if key = ArrowLeft ∨ key = ArrowUp then { fs with direction := -1 }
      else { fs with lastMatch := -1, direction := 1 }
    let fs₂ := if fs₁.lastMatch = -1 then { fs₁ with direction := 1 } else fs₁
    let fs₃ := findLoop fs₂ query fs₂.e.rows.length fs₂.lastMatch
    { fs₃ with e := { fs₃.e with statusMessage := strB "Not found " ++ query } }

/-- The editor state after `initEditor` on a 24×80 terminal with no file
argument: `screenRows = 24 - 2`, the sentinel filename, everything else the
Go zero value. -/
def startState : EditorConfig :=
  { x := 0, y := 0, renderX := 0, screenRows := 22, screenCols := 80,
    offRow := 0, offCol := 0, rows := [], profile := none, dirty := false,
    filename := EmptyFile, statusMessage := [] }

/-- A two-row buffer whose rows carry their correct indices. -/
def twoRowState : EditorConfig :=
  { startState with
    rows := [⟨0, strB "a", strB "a", [HighlightNormal], false⟩,
             ⟨1, strB "b", strB "b", [HighlightNormal], false⟩] }

/-- C1: the row-index invariant `r.idx = position of r` does not survive the
operations the claim names.  `editorOpen` appends rows as `EditorRow{line: l}`
and never assigns `idx`, so after loading a two-line file the second row still
has `idx = 0`; and `editorDeleteRow` decrements `idx` only on the old slice it
is about to discard, so after deleting row 0 of a correctly-indexed two-row
buffer the surviving row keeps `idx = 1` at position 0. -/
theorem c1_idx_invariant_broken :
    (rowAt (editorOpen startState (strB "a.txt") [strB "a", strB "b"]).rows 1).idx = 0 ∧
    (rowAt (editorDeleteRow twoRowState 0).rows 0).idx = 1 := by decide

/-- C2: the cursor invariant `0 ≤ cy` is violated by a single keystroke from
startup: with the empty buffer (`cy = 0 = len(rows)`), Backspace takes the
virtual-trailing-row branch of `editorDeleteChar`, which runs
`editorDeleteRow(len(rows))` (marking the buffer dirty) and decrements `cy`
to `-1`. -/
theorem c2_cursor_invariant_broken :
    editorProcessKeyPress (fun e => e) (fun e => e) BackspaceKey startState 3 =
      StepResult.cont { startState with statusMessage := [BackspaceKey],
                                        dirty := true, y := -1 } 3 := by decide

/-- C3: Backspace at `(0,0)` on the empty buffer is not a no-op: the
`cy == len(rows)` branch fires first, sets `dirty` and moves `cy` to `-1`. -/
theorem c3_backspace_empty_not_noop :
    editorDeleteChar startState = { startState with dirty := true, y := -1 } := by decide

/-- C4: open `a.go` containing the lines `/*` and `x`.  Row 0 is painted
`MultilineComment` with `hl_open_comment = true`, but because `editorOpen`
leaves every row's `idx` at 0, the syntax pass always reads `inComment` as
false for row 1, which stays `Normal` with `hl_open_comment = false` instead
of being fully `MultilineComment`. -/
theorem c4_mlcomment_no_propagation :
    (rowAt (editorOpen startState (strB "a.go") [strB "/*", strB "x"]).rows 0).hlOpenComment
        = true ∧
    (rowAt (editorOpen startState (strB "a.go") [strB "/*", strB "x"]).rows 1).highlight
        = [HighlightNormal] ∧
    (rowAt (editorOpen startState (strB "a.go") [strB "/*", strB "x"]).rows 1).hlOpenComment
        = false := by decide

/-- C5, counterexample: activation is not membership of the suffix in
`file_match`.  For filename `x.cp` the suffix is `.cp`, which is a member of
no profile's `file_match`, yet `strings.Contains(".cpp", ".cp")` holds and the
C profile is activated. -/
theorem c5_contains_not_membership :
    (editorSelectSyntaxHighlight { startState with filename := strB "x.cp" }).profile
        = some cLangSyntax ∧
    ¬ strB ".cp" ∈ cLangSyntax.fileMatch := by decide


/-- Unfolding equation for the `Render2X` loop on a non-empty line. -/
theorem render2XGo_cons (target h : Nat) (t : List Nat) (cur x : Nat) :
    render2XGo target (h :: t) cur x =
      if cur + (if h = 9 then 4 else 1) > target then x
      else render2XGo target t (cur + (if h = 9 then 4 else 1)) (x + 1) := rfl

/-- Unfolding equation for `X2Render` on a non-empty prefix. -/
theorem X2Render_cons (h : Nat) (t : List Nat) (c : Nat) :
    X2Render (h :: t) (c + 1) = (if h = 9 then 4 else 1) + X2Render t c := rfl

/-- The `Render2X` loop never returns less than its running index. -/
theorem render2XGo_ge (target : Nat) (line : List Nat) :
    ∀ cur x, x ≤ render2XGo target line cur x := by
  induction line with
  | nil => intro cur x; simp [render2XGo]
  | cons h t ih =>
    intro cur x
    rw [render2XGo_cons]
    set w := (if h = 9 then 4 else 1) with hwdef
    split
    · omega
    · exact Nat.le_trans (Nat.le_succ x) (ih _ (x + 1))

/-- Scanning for the exact width of an in-range prefix recovers its length. -/
theorem render2XGo_x2render (line : List Nat) :
    ∀ c cur x, c ≤ line.length →
      render2XGo (cur + X2Render line c) line cur x = x + c := by
  induction line with
  | nil =>
    intro c cur x hc
    have hc0 : c = 0 := Nat.le_zero.mp (by simpa using hc)
    subst hc0
    simp [render2XGo, X2Render]
  | cons h t ih =>
    intro c cur x hc
    cases c with
    | zero =>
      rw [show X2Render (h :: t) 0 = 0 from rfl, render2XGo_cons]
      set w := (if h = 9 then 4 else 1) with hwdef
      have hw : 1 ≤ w := by rw [hwdef]; split <;> omega
      rw [Nat.add_zero, if_pos (by omega)]
      omega
    | succ c =>
      rw [X2Render_cons, render2XGo_cons]
      set w := (if h = 9 then 4 else 1) with hwdef
      rw [if_neg (by omega)]
      have hc' : c ≤ t.length := by simpa using hc
      have h2 := ih c (cur + w) (x + 1) hc'
      rw [show cur + (w + X2Render t c) = cur + w + X2Render t c by omega, h2]
      omega

/-- The width of the prefix `Render2X` selects never exceeds the target. -/
theorem x2render_render2XGo_le (line : List Nat) :
    ∀ target cur x, cur ≤ target →
      cur + X2Render line (render2XGo target line cur x - x) ≤ target := by
  induction line with
  | nil => intro target cur x h; simpa [render2XGo, X2Render, Nat.sub_self] using h
  | cons h t ih =>
    intro target cur x hle
    rw [render2XGo_cons]
    set w := (if h = 9 then 4 else 1) with hwdef
    by_cases hgt : cur + w > target
    · rw [if_pos hgt]
      simpa [X2Render, Nat.sub_self] using hle
    · rw [if_neg hgt]
      have hcur' : cur + w ≤ target := by omega
      have hres := render2XGo_ge target t (cur + w) (x + 1)
      have h2 := ih target (cur + w) (x + 1) hcur'
      have hsub : render2XGo target t (cur + w) (x + 1) - x
          = (render2XGo target t (cur + w) (x + 1) - (x + 1)) + 1 := by omega
      rw [hsub, X2Render_cons, ← hwdef]
      omega

/-- C7: both column-conversion laws.  `Render2X ∘ X2Render` is the identity on
logical columns `c ≤ len(line)`, and `X2Render ∘ Render2X` never exceeds the
render column it started from; a tab weighs `TabStop = 4` render columns and
every other byte one. -/
theorem c7_column_conversion_laws :
    (∀ line c, c ≤ line.length → Render2X line (X2Render line c) = c) ∧
    (∀ line r, X2Render line (Render2X line r) ≤ r) := by
  constructor
  · intro line c hc
    simpa [Render2X] using render2XGo_x2render line c 0 0 hc
  · intro line r
    simpa [Render2X] using x2render_render2XGo_le line r 0 0 (Nat.zero_le r)

/-- Witness for C7 on the line `a\tb` (render width 1 + 4 + 1). -/
theorem c7_column_conversion_laws_witness :
    Render2X (strB "a\tb") (X2Render (strB "a\tb") 2) = 2 ∧
    X2Render (strB "a\tb") (Render2X (strB "a\tb") 7) ≤ 7 :=
  ⟨c7_column_conversion_laws.1 (strB "a\tb") 2 (by decide),
   c7_column_conversion_laws.2 (strB "a\tb") 7⟩

/-- C8: the `ESC [ <digit> ~` dispatch — `1,7 → Home`, `3 → Del`, `4,8 → End`,
`5 → PageUp`, `6 → PageDown`, every other digit `Escape` — and the truncation
behaviour: when fewer bytes than a complete sequence follow the `ESC`, the
decoder returns `Escape` and leaves nothing buffered for later calls. -/
theorem c8_escape_digit_dispatch :
    (∀ d rest, 48 ≤ d → d ≤ 57 →
      editorReadKey (27 :: 91 :: d :: 126 :: rest) =
        (if d = 49 ∨ d = 55 then HomeKey
         else if d = 51 then DelKey
         else if d = 52 ∨ d = 56 then EndKey
         else if d = 53 then PageUp
         else if d = 54 then PageDown
         else EscapeCharKey, rest)) ∧
    editorReadKey [27] = (EscapeCharKey, []) ∧
    (∀ b, editorReadKey [27, b] = (EscapeCharKey, [])) ∧
    (∀ d, 48 ≤ d → d ≤ 57 → editorReadKey [27, 91, d] = (EscapeCharKey, [])) := by
  refine ⟨?_, rfl, ?_, ?_⟩
  · intro d rest h1 h2
    interval_cases d <;> rfl
  · intro b
    rfl
  · intro d h1 h2
    interval_cases d <;> rfl

/-- Witness for C8: `ESC [ 5 ~` is PageUp; the truncated `ESC [ 5` collapses
to Escape with an empty remainder. -/
theorem c8_escape_digit_dispatch_witness :
    editorReadKey [27, 91, 53, 126] = (PageUp, []) ∧
    editorReadKey [27, 91, 53] = (EscapeCharKey, []) := by
  constructor
  · have h := c8_escape_digit_dispatch.1 53 [] (by decide) (by decide)
    simpa using h
  · exact c8_escape_digit_dispatch.2.2.2 53 (by decide) (by decide)

/-- C10: every invocation of the find callback with a key other than `End` or
`Escape` — the keys that terminate find mode — ends by setting the status
message to `"Not found <query>"`, whether or not the search found a match and
moved the cursor. -/
theorem c10_find_always_not_found :
    ∀ (fs : FindState) (query : List Nat) (key : Nat),
      key ≠ EndKey → key ≠ EscapeCharKey →
      (editorFindCallBack fs query key).e.statusMessage = strB "Not found " ++ query := by
  intro fs query key h1 h2
  simp only [editorFindCallBack]
  rw [if_neg (by simp [h1, h2])]

/-- Witness for C10: searching for `q` with Enter in the empty buffer (no
match anywhere) still reports `"Not found q"`. -/
theorem c10_find_always_not_found_witness :
    (editorFindCallBack ⟨startState, -1, 1, -1, []⟩ (strB "q") EnterKey).e.statusMessage
      = strB "Not found " ++ strB "q" :=
  c10_find_always_not_found ⟨startState, -1, 1, -1, []⟩ (strB "q") EnterKey
    (by decide) (by decide)

/-- C9: from any dirty state with the quit counter at its initial value 3,
the first three Ctrl-Q presses each show the unsaved-changes warning,
decrement the counter and do not exit; the fourth exits with code 0; and any
key other than Ctrl-Q that continues leaves the counter reset to 3 (the
`quitTimes = 3` at the end of every other dispatch path, for arbitrary
`editorSave`/`editorFind` behaviour). -/
theorem c9_quit_confirmation :
    ∀ (saveFn findFn : EditorConfig → EditorConfig) (s : EditorConfig),
      s.dirty = true →
      (editorProcessKeyPress saveFn findFn (ctrlKey 113) s 3 =
        StepResult.cont { s with statusMessage := quitWarning 3 } 2) ∧
      (editorProcessKeyPress saveFn findFn (ctrlKey 113)
          { s with statusMessage := quitWarning 3 } 2 =
        StepResult.cont { s with statusMessage := quitWarning 2 } 1) ∧
      (editorProcessKeyPress saveFn findFn (ctrlKey 113)
          { s with statusMessage := quitWarning 2 } 1 =
        StepResult.cont { s with statusMessage := quitWarning 1 } 0) ∧
      (editorProcessKeyPress saveFn findFn (ctrlKey 113)
          { s with statusMessage := quitWarning 1 } 0 = StepResult.exitCode 0) ∧
      (∀ (c : Nat) (s' : EditorConfig) (qt : Nat) (s'' : EditorConfig) (qt' : Nat),
        c ≠ ctrlKey 113 →
        editorProcessKeyPress saveFn findFn c s' qt = StepResult.cont s'' qt' →
        qt' = 3) := by
  intro saveFn findFn s hd
  have hne : ¬ ctrlKey 113 = EnterKey := by decide
  refine ⟨?_, ?_, ?_, ?_, ?_⟩
  · simp [editorProcessKeyPress, hd, hne]
  · simp [editorProcessKeyPress, hd, hne]
  · simp [editorProcessKeyPress, hd, hne]
  · simp [editorProcessKeyPress, hd, hne]
  · intro c s' qt s'' qt' hc hstep
    simp only [editorProcessKeyPress] at hstep
    by_cases hEnter : c = EnterKey
    · rw [if_pos hEnter] at hstep
      injection hstep with h1 h2
      exact h2.symm
    rw [if_neg hEnter] at hstep
    by_cases hQ : c = ctrlKey 113
    · exact absurd hQ hc
    rw [if_neg hQ] at hstep
    by_cases hS : c = ctrlKey 115
    · rw [if_pos hS] at hstep
      injection hstep with h1 h2
      exact h2.symm
    rw [if_neg hS] at hstep
    by_cases hF : c = ctrlKey 102
    · rw [if_pos hF] at hstep
      injection hstep with h1 h2
      exact h2.symm
    rw [if_neg hF] at hstep
    by_cases hPg : c = PageUp ∨ c = PageDown
    · rw [if_pos hPg] at hstep
      injection hstep with h1 h2
      exact h2.symm
    rw [if_neg hPg] at hstep
    by_cases hHome : c = HomeKey
    · rw [if_pos hHome] at hstep
      injection hstep with h1 h2
      exact h2.symm
    rw [if_neg hHome] at hstep
    by_cases hEnd : c = EndKey
    · rw [if_pos hEnd] at hstep
      injection hstep with h1 h2
      exact h2.symm
    rw [if_neg hEnd] at hstep
    by_cases hDel : c = DelKey
    · rw [if_pos hDel] at hstep
      injection hstep with h1 h2
      exact h2.symm
    rw [if_neg hDel] at hstep
    by_cases hBs : c = BackspaceKey ∨ c = ctrlKey 104
    · rw [if_pos hBs] at hstep
      injection hstep with h1 h2
      exact h2.symm
    rw [if_neg hBs] at hstep
    by_cases hAr : c = ArrowUp ∨ c = ArrowDown ∨ c = ArrowRight ∨ c = ArrowLeft
    · rw [if_pos hAr] at hstep
      injection hstep with h1 h2
      exact h2.symm
    rw [if_neg hAr] at hstep
    by_cases hL : c = ctrlKey 108 ∨ c = EscapeCharKey
    · rw [if_pos hL] at hstep
      injection hstep with h1 h2
      exact h2.symm
    rw [if_neg hL] at hstep
    injection hstep with h1 h2
    exact h2.symm

/-- Witness for C9 on the concrete dirty startup state: the fourth Ctrl-Q
(counter at 0 after the three warnings) exits with code 0. -/
theorem c9_quit_confirmation_witness :
    editorProcessKeyPress (fun e => e) (fun e => e) (ctrlKey 113)
        { { startState with dirty := true } with statusMessage := quitWarning 1 } 0 =
      StepResult.exitCode 0 :=
  (c9_quit_confirmation (fun e => e) (fun e => e)
    { startState with dirty := true } rfl).2.2.2.1

/-- The filename suffix the profile scan is keyed on: from the last `.`
onwards, the empty string when there is no dot. -/
def extOf (filename : List Nat) : List Nat :=
  match lastIndexDot filename with
  | some i => filename.drop i
  | none => []

/-- Modelled from the spec as amended: no profile for the sentinel filename,
otherwise the first profile in the database with a `file_match` entry that
contains the suffix as a substring. -/
def specSelectedProfile (filename : List Nat) : Option EditorSyntax :=
  if filename = EmptyFile then none
  else HighlightDatabase.find? (fun sy => sy.fileMatch.any (fun m => containsSub m (extOf filename)))

/-- C5, amended: `editorSelectSyntaxHighlight` activates exactly the first
profile one of whose `file_match` entries *contains* the last-`.` suffix of
the filename as a substring (none for the sentinel filename, none when no
entry contains the suffix), and re-highlights every row exactly when a
profile is activated. -/
theorem c5_selection_characterisation :
    ∀ s : EditorConfig,
      (editorSelectSyntaxHighlight s).profile = specSelectedProfile s.filename ∧
      (editorSelectSyntaxHighlight s).rows =
        (match specSelectedProfile s.filename with
         | some sy => renderSyntaxAll (some sy) s.rows
         | none => s.rows) := by
  intro s
  unfold editorSelectSyntaxHighlight specSelectedProfile extOf
  by_cases hf : s.filename = EmptyFile
  · simp [hf]
  · simp only [if_neg hf]
    set ext := (match lastIndexDot s.filename with
                | some i => s.filename.drop i
                | none => ([] : List Nat)) with hext
    simp only [HighlightDatabase, selectLoop]
    by_cases h1 : cLangSyntax.fileMatch.any (fun m => containsSub m ext)
    · simp [h1, List.find?]
    · by_cases h2 : goLangSyntax.fileMatch.any (fun m => containsSub m ext)
      · simp [h1, h2, selectLoop, List.find?]
      · simp [h1, h2, selectLoop, List.find?]

theorem rowAt_set_self (rows : List EditorRow) (p : Nat) (r : EditorRow)
    (h : p < rows.length) : rowAt (rows.set p r) p = r := by
  simp [rowAt, List.getD_eq_getElem?_getD, List.getElem?_set_self h]

theorem rowAt_set_ne (rows : List EditorRow) (p q : Nat) (r : EditorRow)
    (h : p ≠ q) : rowAt (rows.set p r) q = rowAt rows q := by
  simp [rowAt, List.getD_eq_getElem?_getD, List.getElem?_set_ne h]

theorem set_rowAt_self (rows : List EditorRow) (p : Nat) (h : p < rows.length) :
    rows.set p (rowAt rows p) = rows := by
  apply List.ext_getElem?
  intro i
  by_cases hip : p = i
  · subst hip
    rw [List.getElem?_set_self h, rowAt, List.getD_eq_getElem _ _ h,
      List.getElem?_eq_getElem h]
  · rw [List.getElem?_set_ne hip]

theorem rows_ext (R S : List EditorRow) (hlen : R.length = S.length)
    (h : ∀ q, q < S.length → rowAt R q = rowAt S q) : R = S := by
  apply List.ext_getElem?
  intro i
  by_cases hi : i < S.length
  · have hR : i < R.length := by omega
    have hq := h i hi
    rw [rowAt, rowAt, List.getD_eq_getElem _ _ hR, List.getD_eq_getElem _ _ hi] at hq
    rw [List.getElem?_eq_getElem hR, List.getElem?_eq_getElem hi, hq]
  · rw [List.getElem?_eq_none (by omega), List.getElem?_eq_none (by omega)]

/-- The `inComment` seed the syntax pass reads for the row at position `p` of
an index-correct buffer: the previous row's flag, false for row 0. -/
def predFlag (rows : List EditorRow) (p : Nat) : Bool :=
  decide (p > 0) && (rowAt rows (p - 1)).hlOpenComment

/-- The canonical forward cascade of the syntax pass: starting at position `p`
with seed flag `b`, set every row from `p` on to the chained
`computeHighlight` of its render. -/
def applyChain (sy : EditorSyntax) (rows : List EditorRow) (p : Nat) (b : Bool) :
    List EditorRow :=
  if h : p < rows.length then
    applyChain sy
      (rows.set p
        { rowAt rows p with
          highlight := (computeHighlight sy (rowAt rows p).render b).1
          hlOpenComment := (computeHighlight sy (rowAt rows p).render b).2 })
      (p + 1) (computeHighlight sy (rowAt rows p).render b).2
  else rows
termination_by rows.length - p
decreasing_by simp only [List.length_set]; omega

/-- The stored highlight data of the row at `p` is exactly what the syntax
pass recomputes from its render and the predecessor flag (all-`Normal` when
no profile is active, where the pass also leaves `hl_open_comment` alone). -/
def consistAt (syn : Option EditorSyntax) (rows : List EditorRow) (p : Nat) : Prop :=
  match syn with
  | none => (rowAt rows p).highlight =
      List.replicate (rowAt rows p).render.length HighlightNormal
  | some sy =>
      computeHighlight sy (rowAt rows p).render (predFlag rows p) =
        ((rowAt rows p).highlight, (rowAt rows p).hlOpenComment)

instance (syn : Option EditorSyntax) (rows : List EditorRow) (p : Nat) :
    Decidable (consistAt syn rows p) := by
  unfold consistAt
  cases syn <;> infer_instance

/-- A well-formed buffer: every row's `idx` is its position, its `render` the
tab expansion of its `line`, and its highlight data consistent. -/
def WFRows (syn : Option EditorSyntax) (rows : List EditorRow) : Prop :=
  (∀ p, p < rows.length → (rowAt rows p).idx = p) ∧
  (∀ p, p < rows.length → (rowAt rows p).render = renderOf (rowAt rows p).line) ∧
  (∀ p, p < rows.length → consistAt syn rows p)

instance (syn : Option EditorSyntax) (rows : List EditorRow) :
    Decidable (WFRows syn rows) := by
  unfold WFRows
  infer_instance

/-- The cascade preserves length, every row before its start, and the
`line`/`render`/`idx` fields of every row. -/
theorem applyChain_preserves_aux (sy : EditorSyntax) :
    ∀ (k : Nat) (rows : List EditorRow) (p : Nat) (b : Bool),
      rows.length - p ≤ k →
      (applyChain sy rows p b).length = rows.length ∧
      (∀ q, q < p → rowAt (applyChain sy rows p b) q = rowAt rows q) ∧
      (∀ q, (rowAt (applyChain sy rows p b) q).line = (rowAt rows q).line ∧
            (rowAt (applyChain sy rows p b) q).render = (rowAt rows q).render ∧
            (rowAt (applyChain sy rows p b) q).idx = (rowAt rows q).idx) := by
  intro k
  induction k with
  | zero =>
    intro rows p b hk
    have hnp : ¬ p < rows.length := by omega
    rw [applyChain, dif_neg hnp]
    exact ⟨rfl, fun q _ => rfl, fun q => ⟨rfl, rfl, rfl⟩⟩
  | succ k ih =>
    intro rows p b hk
    by_cases hp : p < rows.length
    · rw [applyChain, dif_pos hp]
      have hlen₁ : (rows.set p
          { rowAt rows p with
            highlight := (computeHighlight sy (rowAt rows p).render b).1
            hlOpenComment := (computeHighlight sy (rowAt rows p).render b).2 }).length
          = rows.length := List.length_set ..
      obtain ⟨ihl, ihpre, ihf⟩ := ih _ (p + 1) (computeHighlight sy (rowAt rows p).render b).2
        (by rw [hlen₁]; omega)
      refine ⟨by rw [ihl, hlen₁], ?_, ?_⟩
      · intro q hq
        rw [ihpre q (by omega), rowAt_set_ne _ _ _ _ (by omega)]
      · intro q
        obtain ⟨f1, f2, f3⟩ := ihf q
        by_cases hqp : q = p
        · subst hqp
          rw [f1, f2, f3, rowAt_set_self _ _ _ hp]
          exact ⟨rfl, rfl, rfl⟩
        · rw [f1, f2, f3, rowAt_set_ne _ _ _ _ (fun h => hqp h.symm)]
          exact ⟨rfl, rfl, rfl⟩
    · rw [applyChain, dif_neg hp]
      exact ⟨rfl, fun q _ => rfl, fun q => ⟨rfl, rfl, rfl⟩⟩

theorem applyChain_length (sy : EditorSyntax) (rows : List EditorRow) (p : Nat) (b : Bool) :
    (applyChain sy rows p b).length = rows.length :=
  (applyChain_preserves_aux sy (rows.length - p) rows p b le_rfl).1

theorem applyChain_prefix (sy : EditorSyntax) (rows : List EditorRow) (p : Nat) (b : Bool)
    (q : Nat) (hq : q < p) : rowAt (applyChain sy rows p b) q = rowAt rows q :=
  (applyChain_preserves_aux sy (rows.length - p) rows p b le_rfl).2.1 q hq

theorem applyChain_fields (sy : EditorSyntax) (rows : List EditorRow) (p : Nat) (b : Bool)
    (q : Nat) :
    (rowAt (applyChain sy rows p b) q).line = (rowAt rows q).line ∧
    (rowAt (applyChain sy rows p b) q).render = (rowAt rows q).render ∧
    (rowAt (applyChain sy rows p b) q).idx = (rowAt rows q).idx :=
  (applyChain_preserves_aux sy (rows.length - p) rows p b le_rfl).2.2 q

/-- Model of `consistAt` only looks at the row itself and its predecessor's flag. -/
theorem consistAt_some_congr (sy : EditorSyntax) (R S : List EditorRow) (q : Nat)
    (h1 : rowAt R q = rowAt S q)
    (h2 : (rowAt R (q - 1)).hlOpenComment = (rowAt S (q - 1)).hlOpenComment) :
    consistAt (some sy) R q ↔ consistAt (some sy) S q := by
  unfold consistAt predFlag
  rw [h1, h2]

/-- Every row from the start of a cascade on is consistent in its output
(for the starting row itself, provided the seed was its predecessor flag). -/
theorem applyChain_consist_aux (sy : EditorSyntax) :
    ∀ (k : Nat) (rows : List EditorRow) (p : Nat) (b : Bool),
      rows.length - p ≤ k →
      ∀ q, p ≤ q → q < rows.length → (q = p → b = predFlag rows p) →
      consistAt (some sy) (applyChain sy rows p b) q := by
  intro k
  induction k with
  | zero => intro rows p b hk q hpq hq _; omega
  | succ k ih =>
    intro rows p b hk q hpq hqlen hseed
    have hp : p < rows.length := by omega
    rw [applyChain, dif_pos hp]
    set res := computeHighlight sy (rowAt rows p).render b with hres
    set new : EditorRow :=
      { rowAt rows p with highlight := res.1, hlOpenComment := res.2 } with hnew
    set rows₁ := rows.set p new with hrows₁
    have hlen₁ : rows₁.length = rows.length := by rw [hrows₁]; exact List.length_set ..
    by_cases hqp : q = p
    · subst hqp
      have hout : rowAt (applyChain sy rows₁ (q + 1) res.2) q = rowAt rows₁ q :=
        applyChain_prefix sy rows₁ (q + 1) res.2 q (Nat.lt_succ_self q)
      have hrow1 : rowAt rows₁ q = new := by rw [hrows₁]; exact rowAt_set_self _ _ _ hp
      unfold consistAt predFlag
      rw [hout, hrow1]
      have hpred : (decide (q > 0) && (rowAt (applyChain sy rows₁ (q + 1) res.2) (q - 1)).hlOpenComment) = b := by
        rcases Nat.eq_zero_or_pos q with h0 | h0
        · subst h0
          have := hseed rfl
          unfold predFlag at this
          simpa using this.symm
        · have h1 : rowAt (applyChain sy rows₁ (q + 1) res.2) (q - 1) = rowAt rows₁ (q - 1) :=
            applyChain_prefix sy rows₁ (q + 1) res.2 (q - 1) (by omega)
          have h2 : rowAt rows₁ (q - 1) = rowAt rows (q - 1) := by
            rw [hrows₁]; exact rowAt_set_ne _ _ _ _ (by omega)
          rw [h1, h2]
          have := hseed rfl
          unfold predFlag at this
          rw [this]
      rw [hpred]
    · have hq1 : p + 1 ≤ q := by omega
      apply ih rows₁ (p + 1) res.2 (by omega) q hq1 (by omega)
      intro hq2
      subst hq2
      unfold predFlag
      have : rowAt rows₁ (p + 1 - 1) = new := by
        rw [hrows₁]
        simpa using rowAt_set_self _ _ _ hp
      rw [this, hnew]
      simp

/-- A cascade started on an already-consistent suffix with the right seed
changes nothing. -/
theorem applyChain_fixpoint_aux (sy : EditorSyntax) :
    ∀ (k : Nat) (rows : List EditorRow) (p : Nat) (b : Bool),
      rows.length - p ≤ k →
      (∀ q, p ≤ q → q < rows.length → consistAt (some sy) rows q) →
      (p < rows.length → b = predFlag rows p) →
      applyChain sy rows p b = rows := by
  intro k
  induction k with
  | zero =>
    intro rows p b hk _ _
    have hnp : ¬ p < rows.length := by omega
    rw [applyChain, dif_neg hnp]
  | succ k ih =>
    intro rows p b hk hcons hseed
    by_cases hp : p < rows.length
    · rw [applyChain, dif_pos hp]
      have hb := hseed hp
      have hcp := hcons p le_rfl hp
      unfold consistAt at hcp
      rw [← hb] at hcp
      have hrow : ({ rowAt rows p with
          highlight := (computeHighlight sy (rowAt rows p).render b).1
          hlOpenComment := (computeHighlight sy (rowAt rows p).render b).2 }) = rowAt rows p := by
        rw [hcp]
      rw [hrow, set_rowAt_self _ _ hp]
      apply ih rows (p + 1) _ (by omega)
      · intro q h1 h2
        exact hcons q (by omega) h2
      · intro _
        rw [hcp]
        unfold predFlag
        simp
    · rw [applyChain, dif_neg hp]

/-- On an index-correct buffer whose rows after `p` are consistent, the
source's recursive re-render from position `p` computes exactly the canonical
forward cascade seeded with the predecessor flag. -/
theorem renderSyntaxAt_eq_applyChain (sy : EditorSyntax) :
    ∀ (fuel : Nat) (rows : List EditorRow) (p : Nat),
      p < rows.length →
      rows.length - p ≤ fuel →
      (∀ q, q < rows.length → (rowAt rows q).idx = q) →
      (∀ q, p < q → q < rows.length → consistAt (some sy) rows q) →
      editorRenderSyntaxAt (some sy) fuel rows p =
        applyChain sy rows p (predFlag rows p) := by
  intro fuel
  induction fuel with
  | zero => intro rows p hp hk _ _; omega
  | succ fuel ih =>
    intro rows p hp hk hidx hcons
    have hidxp : (rowAt rows p).idx = p := hidx p hp
    rw [applyChain, dif_pos hp]
    simp only [editorRenderSyntaxAt, hidxp]
    rw [show (decide (p > 0) && (rowAt rows (p - 1)).hlOpenComment) = predFlag rows p
        from rfl]
    set res := computeHighlight sy (rowAt rows p).render (predFlag rows p) with hres
    set new : EditorRow :=
      { idx := p, line := (rowAt rows p).line, render := (rowAt rows p).render,
        highlight := res.1, hlOpenComment := res.2 } with hnew
    set rows' := rows.set p new with hrows'
    have hlen' : rows'.length = rows.length := by rw [hrows']; exact List.length_set ..
    have hrowp : rowAt rows' p = new := by rw [hrows']; exact rowAt_set_self _ _ _ hp
    by_cases hcond : (rowAt rows p).hlOpenComment ≠ res.2 ∧ p + 1 < rows'.length
    · rw [if_pos hcond]
      have hidx' : ∀ q, q < rows'.length → (rowAt rows' q).idx = q := by
        intro q hq
        by_cases hqp : q = p
        · subst hqp; rw [hrowp, hnew]
        · rw [hrows', rowAt_set_ne _ _ _ _ (fun h => hqp h.symm)]
          exact hidx q (by omega)
      have hcons' : ∀ q, p + 1 < q → q < rows'.length → consistAt (some sy) rows' q := by
        intro q h1 h2
        have e1 : rowAt rows' q = rowAt rows q := by
          rw [hrows']; exact rowAt_set_ne _ _ _ _ (by omega)
        have e2 : (rowAt rows' (q - 1)).hlOpenComment = (rowAt rows (q - 1)).hlOpenComment := by
          rw [hrows', rowAt_set_ne _ _ _ _ (by omega)]
        exact (consistAt_some_congr sy rows' rows q e1 e2).mpr (hcons q (by omega) (by omega))
      have hstep := ih rows' (p + 1) hcond.2 (by omega) hidx' hcons'
      rw [hstep]
      have hpred' : predFlag rows' (p + 1) = res.2 := by
        unfold predFlag
        have h1 : p + 1 - 1 = p := by omega
        rw [h1, hrowp, hnew]
        simp
      rw [hpred']
    · rw [if_neg hcond]
      by_cases hlt : p + 1 < rows'.length
      · have heq : (rowAt rows p).hlOpenComment = res.2 := by tauto
        refine (applyChain_fixpoint_aux sy (rows'.length - (p + 1)) rows' (p + 1) res.2
          le_rfl ?_ ?_).symm
        · intro q h1 h2
          by_cases hq1 : q = p + 1
          · subst hq1
            have e1 : rowAt rows' (p + 1) = rowAt rows (p + 1) := by
              rw [hrows']; exact rowAt_set_ne _ _ _ _ (by omega)
            have e2 : (rowAt rows' (p + 1 - 1)).hlOpenComment
                = (rowAt rows (p + 1 - 1)).hlOpenComment := by
              have h3 : p + 1 - 1 = p := by omega
              rw [h3, hrowp, hnew, ← heq]
            exact (consistAt_some_congr sy rows' rows (p + 1) e1 e2).mpr
              (hcons (p + 1) (by omega) (by omega))
          · have e1 : rowAt rows' q = rowAt rows q := by
              rw [hrows']; exact rowAt_set_ne _ _ _ _ (by omega)
            have e2 : (rowAt rows' (q - 1)).hlOpenComment
                = (rowAt rows (q - 1)).hlOpenComment := by
              rw [hrows', rowAt_set_ne _ _ _ _ (by omega)]
            exact (consistAt_some_congr sy rows' rows q e1 e2).mpr
              (hcons q (by omega) (by omega))
        · intro _
          unfold predFlag
          have h3 : p + 1 - 1 = p := by omega
          rw [h3, hrowp, hnew]
          simp
      · rw [applyChain, dif_neg hlt]

/-- Two rows with equal fields are equal. -/
theorem EditorRow.eq_of_fields {r s : EditorRow}
    (h1 : r.idx = s.idx) (h2 : r.line = s.line) (h3 : r.render = s.render)
    (h4 : r.highlight = s.highlight) (h5 : r.hlOpenComment = s.hlOpenComment) : r = s := by
  cases r; cases s; simp_all

/-- Deleting the byte just inserted restores the line. -/
theorem insert_delete_line (l : List Nat) (x : Nat) (ch : Nat) (hx : x ≤ l.length) :
    (l.take x ++ [ch] ++ l.drop x).take x ++ (l.take x ++ [ch] ++ l.drop x).drop (x + 1)
      = l := by
  have h1 : (l.take x ++ [ch] ++ l.drop x).take x = l.take x := by
    rw [List.append_assoc, List.take_append_of_le_length (by simp [hx]), List.take_take]
    simp
  have h2 : (l.take x ++ [ch] ++ l.drop x).drop (x + 1) = l.drop x := by
    have h : (l.take x ++ [ch]).length = x + 1 := by simp [hx]
    rw [show x + 1 = (l.take x ++ [ch]).length from h.symm, List.drop_left]
  rw [h1, h2, List.take_append_drop]

/-- A cascade run on a buffer that agrees with a consistent original
everywhere except in the highlight data from position `p` on — with the
original's seed — restores the original. -/
theorem applyChain_restore_aux (sy : EditorSyntax) :
    ∀ (k : Nat) (orig R : List EditorRow) (p : Nat) (b : Bool),
      orig.length - p ≤ k →
      R.length = orig.length →
      (∀ q, q < p → rowAt R q = rowAt orig q) →
      (∀ q, (rowAt R q).line = (rowAt orig q).line ∧
            (rowAt R q).render = (rowAt orig q).render ∧
            (rowAt R q).idx = (rowAt orig q).idx) →
      (∀ q, q < orig.length → consistAt (some sy) orig q) →
      (p < orig.length → b = predFlag orig p) →
      applyChain sy R p b = orig := by
  intro k
  induction k with
  | zero =>
    intro orig R p b hk hlen hpre hfields hcons hseed
    have hnp : ¬ p < R.length := by omega
    rw [applyChain, dif_neg hnp]
    exact rows_ext R orig hlen (fun q hq => hpre q (by omega))
  | succ k ih =>
    intro orig R p b hk hlen hpre hfields hcons hseed
    by_cases hp : p < R.length
    · rw [applyChain, dif_pos hp]
      have hpo : p < orig.length := by omega
      have hb := hseed hpo
      obtain ⟨hfl, hfr, hfi⟩ := hfields p
      have hcp := hcons p hpo
      unfold consistAt at hcp
      have hcomp : computeHighlight sy (rowAt R p).render b =
          ((rowAt orig p).highlight, (rowAt orig p).hlOpenComment) := by
        rw [hfr, hb]; exact hcp
      have hrowe : ({ rowAt R p with
          highlight := (computeHighlight sy (rowAt R p).render b).1
          hlOpenComment := (computeHighlight sy (rowAt R p).render b).2 }) = rowAt orig p := by
        rw [hcomp]
        exact EditorRow.eq_of_fields hfi hfl hfr rfl rfl
      rw [hrowe]
      apply ih orig (R.set p (rowAt orig p)) (p + 1)
        (computeHighlight sy (rowAt R p).render b).2 (by omega) (by simpa using hlen)
      · intro q hq
        by_cases hqp : q = p
        · subst hqp; exact rowAt_set_self _ _ _ hp
        · rw [rowAt_set_ne _ _ _ _ (fun h => hqp h.symm)]
          exact hpre q (by omega)
      · intro q
        by_cases hqp : q = p
        · subst hqp
          rw [rowAt_set_self _ _ _ hp]
          exact ⟨rfl, rfl, rfl⟩
        · rw [rowAt_set_ne _ _ _ _ (fun h => hqp h.symm)]
          exact hfields q
      · exact hcons
      · intro hplen
        rw [hcomp]
        unfold predFlag
        have h3 : p + 1 - 1 = p := by omega
        rw [h3]
        simp
    · rw [applyChain, dif_neg hp]
      exact rows_ext R orig hlen (fun q hq => hpre q (by omega))

/-- The recursive re-render preserves the buffer length. -/
theorem editorRenderSyntaxAt_length (syn : Option EditorSyntax) :
    ∀ (fuel : Nat) (rows : List EditorRow) (p : Nat),
      (editorRenderSyntaxAt syn fuel rows p).length = rows.length := by
  intro fuel
  induction fuel with
  | zero => intro rows p; rfl
  | succ fuel ih =>
    intro rows p
    cases syn with
    | none => simp [editorRenderSyntaxAt]
    | some sy =>
      simp only [editorRenderSyntaxAt]
      split
      · rw [ih]
        exact List.length_set ..
      · exact List.length_set ..

/-- The recursive re-render touches only `highlight` and `hl_open_comment`. -/
theorem editorRenderSyntaxAt_fields (syn : Option EditorSyntax) :
    ∀ (fuel : Nat) (rows : List EditorRow) (p : Nat) (q : Nat),
      (rowAt (editorRenderSyntaxAt syn fuel rows p) q).line = (rowAt rows q).line ∧
      (rowAt (editorRenderSyntaxAt syn fuel rows p) q).render = (rowAt rows q).render ∧
      (rowAt (editorRenderSyntaxAt syn fuel rows p) q).idx = (rowAt rows q).idx := by
  intro fuel
  induction fuel with
  | zero => intro rows p q; exact ⟨rfl, rfl, rfl⟩
  | succ fuel ih =>
    intro rows p q
    have hset : ∀ (r : EditorRow) (hl : List Nat) (b : Bool),
        (rowAt (rows.set p { rowAt rows p with highlight := hl, hlOpenComment := b }) q).line
          = (rowAt rows q).line ∧
        (rowAt (rows.set p { rowAt rows p with highlight := hl, hlOpenComment := b }) q).render
          = (rowAt rows q).render ∧
        (rowAt (rows.set p { rowAt rows p with highlight := hl, hlOpenComment := b }) q).idx
          = (rowAt rows q).idx := by
      intro r hl b
      by_cases hqp : q = p
      · subst hqp
        by_cases hq : q < rows.length
        · rw [rowAt_set_self _ _ _ hq]
          exact ⟨rfl, rfl, rfl⟩
        · rw [rowAt, List.getD_eq_default _ _ (by simpa using by omega)]
          rw [rowAt, List.getD_eq_default _ _ (by omega)]
          exact ⟨rfl, rfl, rfl⟩
      · rw [rowAt_set_ne _ _ _ _ (fun h => hqp h.symm)]
        exact ⟨rfl, rfl, rfl⟩
    cases syn with
    | none =>
      simp only [editorRenderSyntaxAt]
      have h := hset dRow (List.replicate (rowAt rows p).render.length HighlightNormal)
        (rowAt rows p).hlOpenComment
      by_cases hqp : q = p
      · subst hqp
        by_cases hq : q < rows.length
        · rw [rowAt_set_self _ _ _ hq]
          exact ⟨rfl, rfl, rfl⟩
        · rw [rowAt, List.getD_eq_default _ _ (by simpa using by omega)]
          rw [rowAt, List.getD_eq_default _ _ (by omega)]
          exact ⟨rfl, rfl, rfl⟩
      · rw [rowAt_set_ne _ _ _ _ (fun h => hqp h.symm)]
        exact ⟨rfl, rfl, rfl⟩
    | some sy =>
      simp only [editorRenderSyntaxAt]
      split
      · obtain ⟨i1, i2, i3⟩ := ih
          (rows.set p
            { rowAt rows p with
              highlight := (computeHighlight sy (rowAt rows p).render
                (decide ((rowAt rows p).idx > 0) &&
                  (rowAt rows ((rowAt rows p).idx - 1)).hlOpenComment)).1
              hlOpenComment := (computeHighlight sy (rowAt rows p).render
                (decide ((rowAt rows p).idx > 0) &&
                  (rowAt rows ((rowAt rows p).idx - 1)).hlOpenComment)).2 })
          ((rowAt rows p).idx + 1) q
        obtain ⟨s1, s2, s3⟩ := hset dRow
          (computeHighlight sy (rowAt rows p).render
            (decide ((rowAt rows p).idx > 0) &&
              (rowAt rows ((rowAt rows p).idx - 1)).hlOpenComment)).1
          (computeHighlight sy (rowAt rows p).render
            (decide ((rowAt rows p).idx > 0) &&
              (rowAt rows ((rowAt rows p).idx - 1)).hlOpenComment)).2
        exact ⟨i1.trans s1, i2.trans s2, i3.trans s3⟩
      · obtain ⟨s1, s2, s3⟩ := hset dRow
          (computeHighlight sy (rowAt rows p).render
            (decide ((rowAt rows p).idx > 0) &&
              (rowAt rows ((rowAt rows p).idx - 1)).hlOpenComment)).1
          (computeHighlight sy (rowAt rows p).render
            (decide ((rowAt rows p).idx > 0) &&
              (rowAt rows ((rowAt rows p).idx - 1)).hlOpenComment)).2
        exact ⟨s1, s2, s3⟩

/-- Model of `editorRowInsertChar` with an in-range column: no clamping. -/
theorem editorRowInsertChar_eq (s : EditorConfig) (p : Nat) (at_ : Int) (ch : Nat)
    (h0 : 0 ≤ at_) (h1 : at_ ≤ ((rowAt s.rows p).line.length : Int)) :
    editorRowInsertChar s p at_ ch =
      { s with
        rows := editorRenderRowAt s.profile
          (s.rows.set p { rowAt s.rows p with
            line := (rowAt s.rows p).line.take at_.toNat ++ [ch % 256] ++
                    (rowAt s.rows p).line.drop at_.toNat }) p
        dirty := true } := by
  simp only [editorRowInsertChar]
  rw [if_neg (by omega)]

/-- Model of `editorRowDeleteChar` with an in-range column: not a no-op. -/
theorem editorRowDeleteChar_eq (s : EditorConfig) (p : Nat) (at_ : Int)
    (h0 : 0 ≤ at_) (h1 : at_ < ((rowAt s.rows p).line.length : Int)) :
    editorRowDeleteChar s p at_ =
      { s with
        rows := editorRenderRowAt s.profile
          (s.rows.set p { rowAt s.rows p with
            line := (rowAt s.rows p).line.take at_.toNat ++
                    (rowAt s.rows p).line.drop (at_.toNat + 1) }) p
        dirty := true } := by
  simp only [editorRowDeleteChar]
  rw [if_neg (by omega)]

/-- Model of `editorInsertChar` away from the virtual trailing row. -/
theorem editorInsertChar_eq (s : EditorConfig) (ch : Nat)
    (h : ¬ s.y = (s.rows.length : Int)) :
    editorInsertChar s ch =
      { editorRowInsertChar s s.y.toNat s.x ch with
        x := (editorRowInsertChar s s.y.toNat s.x ch).x + 1 } := by
  simp only [editorInsertChar]
  rw [if_neg h]

/-- Model of `editorDeleteChar` in its plain in-row branch. -/
theorem editorDeleteChar_delete_eq (s : EditorConfig)
    (h1 : ¬ s.y = (s.rows.length : Int)) (h3 : s.x > 0) :
    editorDeleteChar s =
      { editorRowDeleteChar s s.y.toNat (s.x - 1) with
        x := (editorRowDeleteChar s s.y.toNat (s.x - 1)).x - 1 } := by
  simp only [editorDeleteChar]
  rw [if_neg h1, if_neg (show ¬ (s.x = 0 ∧ s.y = 0) by omega), if_pos h3]

/-- The no-profile branch of the re-render in closed form. -/
theorem renderSyntaxAt_none_eq (fuel : Nat) (rows : List EditorRow) (p : Nat) :
    editorRenderSyntaxAt none (fuel + 1) rows p =
      rows.set p { rowAt rows p with
        highlight := List.replicate (rowAt rows p).render.length HighlightNormal } := rfl

/-- Model of `predFlag` ignores a write at or after the position it reads. -/
theorem predFlag_set_ge (rows : List EditorRow) (p q : Nat) (r : EditorRow)
    (hpq : q ≤ p) : predFlag (rows.set p r) q = predFlag rows q := by
  unfold predFlag
  rcases Nat.eq_zero_or_pos q with h0 | h0
  · subst h0; simp
  · rw [rowAt_set_ne _ _ _ _ (by omega)]

/-- A reachable one-row buffer whose highlight carries the `Match` overlay a
find session leaves behind: opening `t.txt` with the line `ab`, then Ctrl-F,
typing `ab` and pressing Enter makes the final callback invocation re-run the
search and overwrite the row's highlight with `Match`; `editorFind` then only
restores the cursor and scroll, so the overlay stays in the buffer (violating
the spec's highlight-consistency invariant 4 in a reachable state). -/
def matchState : EditorConfig :=
  { startState with
    filename := strB "t.txt"
    rows := [⟨0, strB "ab", strB "ab", [HighlightMatch, HighlightMatch], false⟩] }

/-- A buffer of the shape `editorDeleteRow` leaves behind: the surviving second
row keeps its stale `idx = 2` at position 1 (spec invariant 6 violated), so
the syntax pass's predecessor read `E.rows[idx-1]` lands on the row itself.
Its render and highlight data are exactly what re-running the pass computes
position-wise (`x/*` opens a comment, `/` continues it), so only `idx` is off;
the cursor sits at `(0, 1)`, on a real row at a valid column. -/
def staleIdxState : EditorConfig :=
  { startState with
    filename := strB "t.go"
    profile := some goLangSyntax
    rows := [⟨0, strB "x/*", strB "x/*", [HighlightNormal, HighlightMultilineComment,
               HighlightMultilineComment], true⟩,
             ⟨2, strB "/", strB "/", [HighlightMultilineComment], true⟩]
    x := 0
    y := 1 }

/-- C6, counterexamples — one for each state class the amended claim has to
exclude.  (a) At `cy = len(rows)` (the empty buffer) inserting a printable
byte first materialises a real row which the delete does not remove.  (b) With
`cy < len(rows)` but a `Match` overlay left in a row's highlight by an
Enter-terminated find, the insert re-renders the row from syntax and the
delete cannot bring the overlay back.  (c) With `cy < len(rows)` and render
and highlight data exactly position-consistent but a stale row `idx` (as
`editorDeleteRow` leaves it), the re-render reads the wrong predecessor flag —
here the row itself — and inserting `*` into the line `/` (closing the open
comment) then backspacing recomputes `/` with the now-false flag, losing the
original `MultilineComment` highlight. -/
theorem c6_insert_delete_not_inverse_counterexamples :
    (¬ (editorDeleteChar (editorInsertChar startState 97)).rows = startState.rows) ∧
    (matchState.y < (matchState.rows.length : Int) ∧
      ¬ (editorDeleteChar (editorInsertChar matchState 120)).rows = matchState.rows) ∧
    (staleIdxState.y < (staleIdxState.rows.length : Int) ∧
      (∀ p, p < staleIdxState.rows.length →
        (rowAt staleIdxState.rows p).render
          = renderOf (rowAt staleIdxState.rows p).line) ∧
      (∀ p, p < staleIdxState.rows.length →
        consistAt staleIdxState.profile staleIdxState.rows p) ∧
      ¬ (editorDeleteChar (editorInsertChar staleIdxState 42)).rows
          = staleIdxState.rows) := by decide

/-- C6, amended: on a well-formed buffer, with the cursor on a real row at a
valid column, inserting any byte and then backspacing restores the entire row
sequence (lines, renders, highlights, comment flags, indices) and the cursor.
Each hypothesis is forced by one of the counterexamples: the virtual trailing
row (`cy = len(rows)`), the find-`Match` overlay (highlight not the fixpoint
of the syntax pass), and the stale row index left by `editorDeleteRow`. -/
theorem c6_insert_delete_inverse :
    ∀ (s : EditorConfig) (c : Nat),
      WFRows s.profile s.rows →
      0 ≤ s.y → s.y < (s.rows.length : Int) →
      0 ≤ s.x → s.x ≤ ((rowAt s.rows s.y.toNat).line.length : Int) →
      (editorDeleteChar (editorInsertChar s c)).rows = s.rows ∧
      (editorDeleteChar (editorInsertChar s c)).x = s.x ∧
      (editorDeleteChar (editorInsertChar s c)).y = s.y := by
  intro s c hWF hy0 hylen hx0 hxlen
  obtain ⟨hidxW, hrenW, hconW⟩ := hWF
  have hyne : ¬ s.y = (s.rows.length : Int) := by omega
  rw [editorInsertChar_eq s c hyne,
      editorRowInsertChar_eq s s.y.toNat s.x c hx0 hxlen]
  set p := s.y.toNat with hpdef
  set x := s.x.toNat with hxdef
  have hpn : p < s.rows.length := by omega
  have hsx : s.x = (x : Int) := by omega
  set row0 := rowAt s.rows p with hrow0def
  have hxle : x ≤ row0.line.length := by omega
  set lineI := row0.line.take x ++ [c % 256] ++ row0.line.drop x with hlineIdef
  set rows1 := s.rows.set p { row0 with line := lineI } with hrows1def
  set RM := editorRenderRowAt s.profile rows1 p with hRMdef0
  set rowIns : EditorRow :=
    { row0 with line := lineI, render := renderOf lineI } with hrowInsdef
  have hr1p : rowAt rows1 p = { row0 with line := lineI } := by
    rw [hrows1def]; exact rowAt_set_self _ _ _ hpn
  have hRMdef : RM = editorRenderSyntaxAt s.profile (rows1.length + 1)
      (s.rows.set p rowIns) p := by
    rw [hRMdef0]
    unfold editorRenderRowAt
    rw [hr1p, hrows1def, List.set_set]
  have hlen1 : rows1.length = s.rows.length := by
    rw [hrows1def]; exact List.length_set ..
  have hlenRM : RM.length = s.rows.length := by
    rw [hRMdef, editorRenderSyntaxAt_length, List.length_set]
  have hreshape :
      ({ { s with rows := RM, dirty := true } with
          x := ({ s with rows := RM, dirty := true }).x + 1 })
        = { s with rows := RM, dirty := true, x := s.x + 1 } := rfl
  rw [hreshape]
  set sI := { s with rows := RM, dirty := true, x := s.x + 1 } with hsIdef
  have hsIy : sI.y = s.y := by rw [hsIdef]
  have hsIrows : sI.rows = RM := by rw [hsIdef]
  have hsIx : sI.x = s.x + 1 := by rw [hsIdef]
  have hsIprof : sI.profile = s.profile := by rw [hsIdef]
  have hd1 : ¬ sI.y = (sI.rows.length : Int) := by
    rw [hsIy, hsIrows, hlenRM]; exact hyne
  have hd3 : sI.x > 0 := by rw [hsIx]; omega
  rw [editorDeleteChar_delete_eq sI hd1 hd3]
  have hsIyt : sI.y.toNat = p := by rw [hsIy]
  have hsIxm : sI.x - 1 = s.x := by rw [hsIx]; omega
  rw [hsIyt, hsIxm]
  have hRMline : (rowAt RM p).line = lineI := by
    rw [hRMdef, (editorRenderSyntaxAt_fields s.profile _ _ p p).1,
      rowAt_set_self _ _ _ hpn, hrowInsdef]
  have hRMidx : (rowAt RM p).idx = p := by
    rw [hRMdef, (editorRenderSyntaxAt_fields s.profile _ _ p p).2.2,
      rowAt_set_self _ _ _ hpn, hrowInsdef]
    exact hidxW p hpn
  have hRMflag : (rowAt RM p).hlOpenComment = row0.hlOpenComment ∨ s.profile ≠ none := by
    by_cases h : s.profile = none
    · left
      rw [hRMdef, h, renderSyntaxAt_none_eq, rowAt_set_self _ _ _ (by simpa using hpn),
        rowAt_set_self _ _ _ hpn, hrowInsdef]
    · right; exact h
  have hlinI : lineI.length = row0.line.length + 1 := by
    rw [hlineIdef]; simp; omega
  have hdel1 : s.x < ((rowAt sI.rows p).line.length : Int) := by
    rw [hsIrows, hRMline]; omega
  rw [editorRowDeleteChar_eq sI p s.x hx0 hdel1]
  have hlineRestore : (rowAt sI.rows p).line.take s.x.toNat ++
      (rowAt sI.rows p).line.drop (s.x.toNat + 1) = row0.line := by
    rw [hsIrows, hRMline, ← hxdef, hlineIdef]
    exact insert_delete_line row0.line x (c % 256) hxle
  rw [hlineRestore, hsIprof, hsIrows]
  refine ⟨?_, by rw [hsIxm], by rw [hsIy]⟩
  show editorRenderRowAt s.profile (RM.set p { rowAt RM p with line := row0.line }) p
      = s.rows
  have hpRM : p < RM.length := by rw [hlenRM]; exact hpn
  have hDp : rowAt (RM.set p { rowAt RM p with line := row0.line }) p
      = { rowAt RM p with line := row0.line } := rowAt_set_self _ _ _ hpRM
  have hcollapse : editorRenderRowAt s.profile
      (RM.set p { rowAt RM p with line := row0.line }) p
      = editorRenderSyntaxAt s.profile
          ((RM.set p { rowAt RM p with line := row0.line }).length + 1)
          (RM.set p { rowAt RM p with line := row0.line, render := renderOf row0.line }) p := by
    unfold editorRenderRowAt
    rw [hDp, List.set_set]
  rw [hcollapse]
  set rowDel2 : EditorRow :=
    { rowAt RM p with line := row0.line, render := renderOf row0.line } with hrowDel2def
  set rowsD := RM.set p rowDel2 with hrowsDdef
  have hlenD : rowsD.length = s.rows.length := by
    rw [hrowsDdef, List.length_set, hlenRM]
  have hfuelD : (RM.set p { rowAt RM p with line := row0.line }).length + 1
      = s.rows.length + 1 := by rw [List.length_set, hlenRM]
  rw [hfuelD]
  cases hsyn : s.profile with
  | none =>
    rw [hsyn] at hRMdef
    have hRMnone : RM = s.rows.set p
        { rowIns with highlight := List.replicate rowIns.render.length HighlightNormal } := by
      rw [hRMdef, renderSyntaxAt_none_eq, rowAt_set_self _ _ _ hpn, List.set_set]
    have hRMp : rowAt RM p =
        { rowIns with highlight := List.replicate rowIns.render.length HighlightNormal } := by
      rw [hRMnone]; exact rowAt_set_self _ _ _ hpn
    rw [renderSyntaxAt_none_eq]
    have hrowsDp : rowAt rowsD p = rowDel2 := by
      rw [hrowsDdef]; exact rowAt_set_self _ _ _ hpRM
    rw [hrowsDp, hrowsDdef, List.set_set, hRMnone, List.set_set]
    apply rows_ext _ _ (List.length_set ..)
    intro q hq
    by_cases hqp : q = p
    · subst hqp
      rw [rowAt_set_self _ _ _ hq]
      refine EditorRow.eq_of_fields ?_ ?_ ?_ ?_ ?_
      · show (rowAt RM p).idx = row0.idx
        rw [hRMidx]
        exact (hidxW p hq).symm
      · rfl
      · show renderOf row0.line = row0.render
        exact (hrenW p hq).symm
      · show List.replicate (renderOf row0.line).length HighlightNormal = row0.highlight
        have hcon := hconW p hq
        rw [hsyn] at hcon
        unfold consistAt at hcon
        rw [hrenW p hq] at hcon
        exact hcon.symm
      · show (rowAt RM p).hlOpenComment = row0.hlOpenComment
        rw [hRMp]
    · rw [rowAt_set_ne _ _ _ _ (fun h => hqp h.symm)]
  | some sy =>
    rw [hsyn] at hRMdef
    have hconS : ∀ q, q < s.rows.length → consistAt (some sy) s.rows q := by
      intro q hq
      have := hconW q hq
      rwa [hsyn] at this
    have hlenSet : (s.rows.set p rowIns).length = s.rows.length := List.length_set ..
    have hidxSet : ∀ q, q < (s.rows.set p rowIns).length →
        (rowAt (s.rows.set p rowIns) q).idx = q := by
      intro q hq
      by_cases hqp : q = p
      · subst hqp
        rw [rowAt_set_self _ _ _ hpn]
        show row0.idx = p
        exact hidxW p hpn
      · rw [rowAt_set_ne _ _ _ _ (fun h => hqp h.symm)]
        exact hidxW q (by omega)
    have hconSet : ∀ q, p < q → q < (s.rows.set p rowIns).length →
        consistAt (some sy) (s.rows.set p rowIns) q := by
      intro q h1 h2
      have e1 : rowAt (s.rows.set p rowIns) q = rowAt s.rows q :=
        rowAt_set_ne _ _ _ _ (by omega)
      have e2 : (rowAt (s.rows.set p rowIns) (q - 1)).hlOpenComment
          = (rowAt s.rows (q - 1)).hlOpenComment := by
        by_cases hq1 : q - 1 = p
        · rw [hq1, rowAt_set_self _ _ _ hpn]
        · rw [rowAt_set_ne _ _ _ _ (fun h => hq1 h.symm)]
      exact (consistAt_some_congr sy _ _ q e1 e2).mpr (hconS q (by omega))
    have hRMchain : RM = applyChain sy (s.rows.set p rowIns) p (predFlag s.rows p) := by
      rw [hRMdef,
        renderSyntaxAt_eq_applyChain sy (rows1.length + 1) (s.rows.set p rowIns) p
          (by omega) (by omega) hidxSet hconSet,
        predFlag_set_ge _ _ _ _ le_rfl]
    have hconsMid : ∀ q, p < q → q < s.rows.length → consistAt (some sy) RM q := by
      intro q h1 h2
      rw [hRMchain]
      exact applyChain_consist_aux sy ((s.rows.set p rowIns).length - p) _ p _ le_rfl q
        (by omega) (by omega) (fun h => absurd h (by omega))
    have hRMq_fields : ∀ q,
        (rowAt RM q).line = (rowAt (s.rows.set p rowIns) q).line ∧
        (rowAt RM q).render = (rowAt (s.rows.set p rowIns) q).render ∧
        (rowAt RM q).idx = (rowAt (s.rows.set p rowIns) q).idx := by
      intro q
      rw [hRMchain]
      exact applyChain_fields sy _ p _ q
    have hrowsDp : rowAt rowsD p = rowDel2 := by
      rw [hrowsDdef]; exact rowAt_set_self _ _ _ hpRM
    have hidxD : ∀ q, q < rowsD.length → (rowAt rowsD q).idx = q := by
      intro q hq
      by_cases hqp : q = p
      · subst hqp
        rw [hrowsDp]
        show (rowAt RM p).idx = p
        exact hRMidx
      · rw [hrowsDdef, rowAt_set_ne _ _ _ _ (fun h => hqp h.symm)]
        rw [(hRMq_fields q).2.2, rowAt_set_ne _ _ _ _ (fun h => hqp h.symm)]
        exact hidxW q (by rw [hlenD] at hq; omega)
    have hconD : ∀ q, p < q → q < rowsD.length → consistAt (some sy) rowsD q := by
      intro q h1 h2
      have e1 : rowAt rowsD q = rowAt RM q := by
        rw [hrowsDdef]; exact rowAt_set_ne _ _ _ _ (by omega)
      have e2 : (rowAt rowsD (q - 1)).hlOpenComment = (rowAt RM (q - 1)).hlOpenComment := by
        by_cases hq1 : q - 1 = p
        · rw [hq1, hrowsDp]
        · rw [hrowsDdef, rowAt_set_ne _ _ _ _ (fun h => hq1 h.symm)]
      exact (consistAt_some_congr sy _ _ q e1 e2).mpr
        (hconsMid q h1 (by rw [hlenD] at h2; omega))
    have hpD : p < rowsD.length := by rw [hlenD]; exact hpn
    rw [renderSyntaxAt_eq_applyChain sy (s.rows.length + 1) rowsD p hpD (by omega)
      hidxD hconD]
    have hpredD : predFlag rowsD p = predFlag s.rows p := by
      rw [hrowsDdef, predFlag_set_ge _ _ _ _ le_rfl]
      unfold predFlag
      rcases Nat.eq_zero_or_pos p with h0 | h0
      · simp [h0]
      · have : rowAt RM (p - 1) = rowAt s.rows (p - 1) := by
          rw [hRMchain, applyChain_prefix sy _ p _ (p - 1) (by omega),
            rowAt_set_ne _ _ _ _ (by omega)]
        rw [this]
    rw [hpredD]
    apply applyChain_restore_aux sy (s.rows.length - p) s.rows rowsD p
      (predFlag s.rows p) le_rfl hlenD
    · intro q hq
      rw [hrowsDdef, rowAt_set_ne _ _ _ _ (by omega), hRMchain,
        applyChain_prefix sy _ p _ q hq, rowAt_set_ne _ _ _ _ (by omega)]
    · intro q
      by_cases hqp : q = p
      · subst hqp
        rw [hrowsDp]
        refine ⟨rfl, ?_, ?_⟩
        · show renderOf row0.line = (rowAt s.rows p).render
          exact (hrenW p hpn).symm
        · show (rowAt RM p).idx = (rowAt s.rows p).idx
          rw [hRMidx]
          exact (hidxW p hpn).symm
      · have e1 : rowAt rowsD q = rowAt RM q := by
          rw [hrowsDdef]; exact rowAt_set_ne _ _ _ _ (fun h => hqp h.symm)
        obtain ⟨f1, f2, f3⟩ := hRMq_fields q
        have e2 : rowAt (s.rows.set p rowIns) q = rowAt s.rows q :=
          rowAt_set_ne _ _ _ _ (fun h => hqp h.symm)
        rw [e1, f1, f2, f3, e2]
        exact ⟨rfl, rfl, rfl⟩
    · exact hconS
    · intro _; rfl

/-- A concrete well-formed two-row buffer with the Go profile active and the
cursor at the end of the first row (`"/"`), where inserting `*` opens a
multi-line comment and re-renders the next row. -/
def wfState : EditorConfig :=
  { startState with
    rows := [⟨0, strB "/", strB "/", [HighlightNormal], false⟩,
             ⟨1, strB "a", strB "a", [HighlightNormal], false⟩]
    profile := some goLangSyntax
    x := 1
    y := 0 }

/-- Witness for C6: inserting `*` (which paints both rows as a multi-line
comment) and backspacing restores the buffer exactly. -/
theorem c6_insert_delete_inverse_witness :
    (editorDeleteChar (editorInsertChar wfState 42)).rows = wfState.rows ∧
    (editorDeleteChar (editorInsertChar wfState 42)).x = wfState.x ∧
    (editorDeleteChar (editorInsertChar wfState 42)).y = wfState.y :=
  c6_insert_delete_inverse wfState 42 (by decide) (by decide) (by decide)
    (by decide) (by decide)
